import Mathlib

/-!
Shallow embedding of `crates/ra_hir/src/adt.rs`: semantic descriptors for
struct and enum definitions (StructData, EnumData, VariantData, StructField),
their construction from definition syntax, and the thin handles (Struct, Enum)
that forward to the query engine.  Cancellation (`Cancelable<T>` in the source,
`Result<T, Canceled>`) is embedded as `Except Canceled`.
-/

namespace RaHir

/-- Interned small string (`SmolStr` in the source); plain `String` here. -/
abbrev SmolStr := String

/-- The cooperative-cancellation signal (`Canceled` in the source crate). -/
structure Canceled where
  deriving DecidableEq, Repr

/-- `Cancelable<T> = Result<T, Canceled>`: a value or the cancellation signal. -/
abbrev Cancelable (α : Type) := Except Canceled α

/-- True exactly when a `Cancelable` outcome is the cancellation signal. -/
def isCanceled {α : Type} : Cancelable α → Bool
  | Except.error _ => true
  | Except.ok _ => false

/-- Opaque stable key of a definition site (`DefId`). -/
structure DefId where
  id : Nat
  deriving DecidableEq, Repr

/-- Opaque module-scope value threaded to the type resolver (`Module`). -/
structure Module where
  id : Nat
  deriving DecidableEq, Repr

/-- Opaque syntax of a type reference (`ast::TypeRef`). -/
structure TypeRef where
  id : Nat
  deriving DecidableEq, Repr

/-- A resolved semantic type (`Ty` from `ty.rs`), opaque to this module. -/
structure Ty where
  id : Nat
  deriving DecidableEq, Repr

/-- Syntax of one named field declaration (`ast::NamedFieldDef`):
optional identifier and optional type reference. -/
structure NamedFieldDef where
  name : Option SmolStr
  type_ref : Option TypeRef
  deriving DecidableEq, Repr

/-- Syntax of one positional field declaration (`ast::PosFieldDef`):
optional type reference only. -/
structure PosFieldDef where
  type_ref : Option TypeRef
  deriving DecidableEq, Repr

/-- Field-declaration flavor of a struct or enum variant (`ast::StructFlavor`):
positional list, named list, or no fields. -/
inductive StructFlavor where
  | Tuple (fields : List PosFieldDef)
  | Named (fields : List NamedFieldDef)
  | Unit
  deriving DecidableEq, Repr

/-- Syntax of a struct definition (`ast::StructDef`): optional declared name
plus its field flavor. -/
structure StructDef where
  name : Option SmolStr
  flavor : StructFlavor
  deriving DecidableEq, Repr

/-- Syntax of one enum variant (`ast::EnumVariant`): optional declared name
plus its own field flavor. -/
structure EnumVariant where
  name : Option SmolStr
  flavor : StructFlavor
  deriving DecidableEq, Repr

/-- Syntax of an enum definition (`ast::EnumDef`): optional declared name and
an optional variant list (absent on malformed source). -/
structure EnumDef where
  name : Option SmolStr
  variant_list : Option (List EnumVariant)
  deriving DecidableEq, Repr

/-- A single field of an enum variant or struct (`StructField`). -/
structure StructField where
  name : SmolStr
  ty : Ty
  deriving DecidableEq, Repr

/-- Fields of an enum variant or struct (`VariantData`). -/
inductive VariantData where
  | Struct (fields : List StructField)
  | Tuple (fields : List StructField)
  | Unit
  deriving DecidableEq, Repr

/-- A struct descriptor (`StructData`): optional declared name plus the
shared variant shape. -/
structure StructData where
  name : Option SmolStr
  variant_data : VariantData
  deriving DecidableEq, Repr

/-- An enum descriptor (`EnumData`): optional declared name plus the ordered
list of (variant name, variant shape) pairs. -/
structure EnumData where
  name : Option SmolStr
  variants : List (SmolStr × VariantData)
  deriving DecidableEq, Repr

/-- The analysis context (`HirDatabase`): the external type resolver
`Ty::from_ast_opt` and the memoized descriptor queries `struct_data` /
`enum_data`, all cancellation-aware. -/
structure HirDatabase where
  ty_from_ast_opt : Module → Option TypeRef → Cancelable Ty
  struct_data : DefId → Cancelable StructData
  enum_data : DefId → Cancelable EnumData

/-- `Ty::from_ast_opt(db, module, opt_type_ref)`: resolve an optional type
reference in a module scope; external, may signal cancellation. -/
def Ty.from_ast_opt (db : HirDatabase) (module : Module)
    (type_ref : Option TypeRef) : Cancelable Ty :=
  db.ty_from_ast_opt module type_ref

/-- `.collect::<Cancelable<_>>()` over a mapped iterator: resolve elements
left to right, stopping at the first cancellation. -/
def mapCancelable {α β : Type} (f : α → Cancelable β) : List α → Cancelable (List β)
  | [] => Except.ok []
  | x :: xs =>
    match f x with
    | Except.error c => Except.error c
    | Except.ok y =>
      match mapCancelable f xs with
      | Except.error c => Except.error c
      | Except.ok ys => Except.ok (y :: ys)

/-- Body of the per-field closure of the positional branch of
`VariantData::new`: name the field by its zero-based decimal index and
resolve its type. -/
def tupleField (db : HirDatabase) (module : Module)
    (p : Nat × PosFieldDef) : Cancelable StructField :=
  match Ty.from_ast_opt db module p.2.type_ref with
  | Except.error c => Except.error c
  | Except.ok ty => Except.ok (StructField.mk (toString p.1) ty)

/-- Body of the per-field closure of the named branch of `VariantData::new`:
use the declared identifier or the `"[error]"` sentinel and resolve the type. -/
def namedField (db : HirDatabase) (module : Module)
    (fd : NamedFieldDef) : Cancelable StructField :=
  match Ty.from_ast_opt db module fd.type_ref with
  | Except.error c => Except.error c
  | Except.ok ty => Except.ok (StructField.mk (fd.name.getD "[error]") ty)

/-- `VariantData::new`: build the variant shape from a field-declaration
flavor.  Positional fields are named by their zero-based decimal index;
named fields use the declared identifier or the `"[error]"` sentinel; each
field's type comes from `Ty::from_ast_opt`. -/
def VariantData.new (db : HirDatabase) (module : Module) :
    StructFlavor → Cancelable VariantData
  | StructFlavor.Tuple fl =>
    match mapCancelable (tupleField db module) fl.enum with
    | Except.error c => Except.error c
    | Except.ok fields => Except.ok (VariantData.Tuple fields)
  | StructFlavor.Named fl =>
    match mapCancelable (namedField db module) fl with
    | Except.error c => Except.error c
    | Except.ok fields => Except.ok (VariantData.Struct fields)
  | StructFlavor.Unit => Except.ok VariantData.Unit

/-- `VariantData::fields`: the stored field list for the named and positional
shapes; empty for the unit shape. -/
def VariantData.fields : VariantData → List StructField
  | VariantData.Struct fields => fields
  | VariantData.Tuple fields => fields
  | VariantData.Unit => []

/-- `VariantData::get_field_ty`: linear first-match scan by field name,
returning the resolved type or `none`. -/
def VariantData.get_field_ty (v : VariantData) (field_name : SmolStr) : Option Ty :=
  (v.fields.find? (fun f => f.name == field_name)).map (fun f => f.ty)

/-- `VariantData::is_struct`: tag test for the named-fields shape. -/
def VariantData.is_struct : VariantData → Bool
  | VariantData.Struct _ => true
  | _ => false

/-- `VariantData::is_tuple`: tag test for the positional-fields shape. -/
def VariantData.is_tuple : VariantData → Bool
  | VariantData.Tuple _ => true
  | _ => false

/-- `VariantData::is_unit`: tag test for the no-fields shape. -/
def VariantData.is_unit : VariantData → Bool
  | VariantData.Unit => true
  | _ => false

/-- `StructData::new`: read the declared name, build the single variant shape
from the definition's flavor, and package both (propagating cancellation). -/
def StructData.new (db : HirDatabase) (module : Module)
    (struct_def : StructDef) : Cancelable StructData :=
  match VariantData.new db module struct_def.flavor with
  | Except.error c => Except.error c
  | Except.ok variant_data =>
    Except.ok (StructData.mk struct_def.name variant_data)

/-- Body of the per-variant closure of `EnumData::new`: pair the variant name
(declared identifier or the `"[error]"` sentinel) with its variant shape. -/
def enumVariantPair (db : HirDatabase) (module : Module)
    (v : EnumVariant) : Cancelable (SmolStr × VariantData) :=
  match VariantData.new db module v.flavor with
  | Except.error c => Except.error c
  | Except.ok vd => Except.ok (v.name.getD "[error]", vd)

/-- `EnumData::new`: read the declared name; for each variant in source order
pair its name (declared identifier or the `"[error]"` sentinel) with its
variant shape; an absent variant list yields the empty list. -/
def EnumData.new (db : HirDatabase) (module : Module)
    (enum_def : EnumDef) : Cancelable EnumData :=
  match enum_def.variant_list with
  | some evl =>
    match mapCancelable (enumVariantPair db module) evl with
    | Except.error c => Except.error c
    | Except.ok variants => Except.ok (EnumData.mk enum_def.name variants)
  | none => Except.ok (EnumData.mk enum_def.name [])

/-- The struct definition handle (`Struct`): a copyable identifier proxy. -/
structure Struct where
  def_id : DefId
  deriving DecidableEq, Repr

/-- `Struct::new`. -/
def Struct.new (def_id : DefId) : Struct :=
  Struct.mk def_id

/-- `Struct::variant_data`: forward to the `struct_data` query and project
the variant shape, propagating cancellation. -/
def Struct.variant_data (s : Struct) (db : HirDatabase) : Cancelable VariantData :=
  match db.struct_data s.def_id with
  | Except.error c => Except.error c
  | Except.ok data => Except.ok data.variant_data

/-- `Struct::struct_data`: forward to the `struct_data` query, propagating
cancellation. -/
def Struct.struct_data (s : Struct) (db : HirDatabase) : Cancelable StructData :=
  match db.struct_data s.def_id with
  | Except.error c => Except.error c
  | Except.ok data => Except.ok data

/-- `Struct::name`: forward to the `struct_data` query and project the
declared name, propagating cancellation. -/
def Struct.name (s : Struct) (db : HirDatabase) : Cancelable (Option SmolStr) :=
  match db.struct_data s.def_id with
  | Except.error c => Except.error c
  | Except.ok data => Except.ok data.name

/-- The enum definition handle (`Enum`): a copyable identifier proxy. -/
structure Enum where
  def_id : DefId
  deriving DecidableEq, Repr

/-- `Enum::new`. -/
def Enum.new (def_id : DefId) : Enum :=
  Enum.mk def_id

/-- `Enum::name`: forward to the `enum_data` query and project the declared
name, propagating cancellation. -/
def Enum.name (e : Enum) (db : HirDatabase) : Cancelable (Option SmolStr) :=
  match db.enum_data e.def_id with
  | Except.error c => Except.error c
  | Except.ok data => Except.ok data.name

/-- The optional type references declared by a flavor, in declaration order. -/
def StructFlavor.typeRefs : StructFlavor → List (Option TypeRef)
  | StructFlavor.Tuple fl => fl.map (fun fd => fd.type_ref)
  | StructFlavor.Named fl => fl.map (fun fd => fd.type_ref)
  | StructFlavor.Unit => []

/-! ### Concrete test fixtures -/

/-- A test context whose resolver never cancels: a present reference of id `n`
resolves to type id `n + 1`, an absent one to the unknown type id `0`. -/
def dbTotal : HirDatabase where
  ty_from_ast_opt := fun _ r =>
    Except.ok (Ty.mk (match r with | some t => t.id + 1 | none => 0))
  struct_data := fun _ => Except.ok (StructData.mk (some "S") VariantData.Unit)
  enum_data := fun _ => Except.ok (EnumData.mk (some "E") [])

/-- A test context whose resolver and queries always cancel. -/
def dbCancel : HirDatabase where
  ty_from_ast_opt := fun _ _ => Except.error Canceled.mk
  struct_data := fun _ => Except.error Canceled.mk
  enum_data := fun _ => Except.error Canceled.mk

/-- A fixed module scope for tests. -/
def mod0 : Module := Module.mk 0

/-- A one-named-field flavor used to exercise cancellation. -/
def flavorOneNamed : StructFlavor :=
  StructFlavor.Named [NamedFieldDef.mk (some "x") (some (TypeRef.mk 1))]

/-- Three positional field declarations, the middle one lacking its type. -/
def fl3 : List PosFieldDef :=
  [PosFieldDef.mk (some (TypeRef.mk 5)), PosFieldDef.mk none,
   PosFieldDef.mk (some (TypeRef.mk 9))]

/-- The shape `fl3` constructs under `dbTotal`. -/
def v3 : VariantData :=
  VariantData.Tuple [StructField.mk "0" (Ty.mk 6), StructField.mk "1" (Ty.mk 0),
    StructField.mk "2" (Ty.mk 10)]

/-- Two named field declarations, the second fully anonymous and untyped. -/
def fl4 : List NamedFieldDef :=
  [NamedFieldDef.mk (some "x") (some (TypeRef.mk 1)), NamedFieldDef.mk none none]

/-- The shape `fl4` constructs under `dbTotal`. -/
def v4 : VariantData :=
  VariantData.Struct [StructField.mk "x" (Ty.mk 2),
    StructField.mk "[error]" (Ty.mk 0)]

/-- An enum declaring a unit variant, a positional variant and an unnamed
named-field variant, in that order. -/
def ed3 : EnumDef :=
  EnumDef.mk (some "E")
    (some [EnumVariant.mk (some "A") StructFlavor.Unit,
      EnumVariant.mk (some "B")
        (StructFlavor.Tuple [PosFieldDef.mk (some (TypeRef.mk 1))]),
      EnumVariant.mk none
        (StructFlavor.Named [NamedFieldDef.mk (some "z") (some (TypeRef.mk 2))])])

/-- The descriptor `ed3` constructs under `dbTotal`. -/
def e3 : EnumData :=
  EnumData.mk (some "E")
    [("A", VariantData.Unit),
     ("B", VariantData.Tuple [StructField.mk "0" (Ty.mk 2)]),
     ("[error]", VariantData.Struct [StructField.mk "z" (Ty.mk 3)])]

/-! ### Helper lemmas about cancellation-aware collection -/

/-- Collecting cancels exactly when resolving some element cancels. -/
theorem mapCancelable_canceled {α β : Type} (f : α → Cancelable β) (l : List α) :
    isCanceled (mapCancelable f l) = l.any (fun x => isCanceled (f x)) := by
  induction l with
  | nil => simp [mapCancelable, isCanceled]
  | cons x xs ih =>
    simp only [mapCancelable, List.any_cons]
    cases hx : f x with
    | error c => simp [isCanceled, hx]
    | ok y =>
      cases hxs : mapCancelable f xs with
      | error c => simp_all [isCanceled]
      | ok ys => simp_all [isCanceled]

/-- A successful collection is the pointwise successful image, in order. -/
theorem mapCancelable_ok {α β : Type} {f : α → Cancelable β} :
    ∀ {l : List α} {ys : List β}, mapCancelable f l = Except.ok ys →
      List.Forall₂ (fun x y => f x = Except.ok y) l ys := by
  intro l
  induction l with
  | nil =>
    intro ys h
    simp only [mapCancelable] at h
    cases h
    exact List.Forall₂.nil
  | cons x xs ih =>
    intro ys h
    simp only [mapCancelable] at h
    cases hx : f x with
    | error c => rw [hx] at h; cases h
    | ok y =>
      rw [hx] at h
      cases hxs : mapCancelable f xs with
      | error c => rw [hxs] at h; cases h
      | ok zs =>
        rw [hxs] at h
        cases h
        exact List.Forall₂.cons hx (ih hxs)

/-- A `Forall₂` relation that fixes an image function turns into a `map`
equation over the two lists. -/
theorem Forall₂_map_eq {α β γ : Type} {R : α → β → Prop}
    (g : β → γ) (h : α → γ) (H : ∀ a b, R a b → g b = h a) :
    ∀ {l : List α} {ys : List β}, List.Forall₂ R l ys → ys.map g = l.map h := by
  intro l ys hf
  induction hf with
  | nil => rfl
  | cons hR _ ih => simp [List.map_cons, H _ _ hR, ih]

/-- `any` over an enumeration that ignores the index is `any` over the list. -/
theorem any_enumFrom {α : Type} (g : α → Bool) :
    ∀ (l : List α) (n : Nat), (l.enumFrom n).any (fun p => g p.2) = l.any g := by
  intro l
  induction l with
  | nil => intro n; rfl
  | cons x xs ih => intro n; simp [List.enumFrom_cons, List.any_cons, ih]

/-- Pointwise equal predicates give equal `any`. -/
theorem any_congr_fn {α : Type} (l : List α) (p q : α → Bool)
    (h : ∀ a, p a = q a) : l.any p = l.any q := by
  induction l with
  | nil => rfl
  | cons x xs ih => simp [List.any_cons, h, ih]

/-- `any` over a mapped list is `any` of the composed predicate. -/
theorem any_map_fn {α β : Type} (l : List α) (f : α → β) (p : β → Bool) :
    (l.map f).any p = l.any (fun a => p (f a)) := by
  induction l with
  | nil => rfl
  | cons x xs ih => simp [List.any_cons, ih]

/-- The positional per-field closure cancels exactly when the resolver does. -/
theorem isCanceled_tupleField (db : HirDatabase) (module : Module)
    (p : Nat × PosFieldDef) :
    isCanceled (tupleField db module p)
      = isCanceled (Ty.from_ast_opt db module p.2.type_ref) := by
  unfold tupleField
  cases Ty.from_ast_opt db module p.2.type_ref <;> rfl

/-- The named per-field closure cancels exactly when the resolver does. -/
theorem isCanceled_namedField (db : HirDatabase) (module : Module)
    (fd : NamedFieldDef) :
    isCanceled (namedField db module fd)
      = isCanceled (Ty.from_ast_opt db module fd.type_ref) := by
  unfold namedField
  cases Ty.from_ast_opt db module fd.type_ref <;> rfl

/-- The per-variant closure cancels exactly when its shape construction does. -/
theorem isCanceled_enumVariantPair (db : HirDatabase) (module : Module)
    (v : EnumVariant) :
    isCanceled (enumVariantPair db module v)
      = isCanceled (VariantData.new db module v.flavor) := by
  unfold enumVariantPair
  cases VariantData.new db module v.flavor <;> rfl

/-- Variant-shape construction cancels exactly when resolving some declared
field's type reference cancels. -/
theorem variantData_new_canceled (db : HirDatabase) (module : Module)
    (flavor : StructFlavor) :
    isCanceled (VariantData.new db module flavor)
      = flavor.typeRefs.any (fun r => isCanceled (Ty.from_ast_opt db module r)) := by
  cases flavor with
  | Tuple fl =>
    have hcol : isCanceled (mapCancelable (tupleField db module) fl.enum)
        = (List.map (fun fd => fd.type_ref) fl).any
            (fun r => isCanceled (Ty.from_ast_opt db module r)) := by
      rw [mapCancelable_canceled]
      rw [any_congr_fn _ _ (fun p : Nat × PosFieldDef =>
        isCanceled (Ty.from_ast_opt db module p.2.type_ref))
        (isCanceled_tupleField db module)]
      rw [show (List.enum fl) = fl.enumFrom 0 from rfl]
      rw [any_enumFrom (fun fd =>
        isCanceled (Ty.from_ast_opt db module fd.type_ref)) fl 0]
      rw [any_map_fn]
    cases hmc : mapCancelable (tupleField db module) fl.enum with
    | error c =>
      rw [hmc] at hcol
      simp only [VariantData.new, StructFlavor.typeRefs, hmc]
      exact hcol
    | ok fields =>
      rw [hmc] at hcol
      simp only [VariantData.new, StructFlavor.typeRefs, hmc]
      exact hcol
  | Named fl =>
    have hcol : isCanceled (mapCancelable (namedField db module) fl)
        = (List.map (fun fd => fd.type_ref) fl).any
            (fun r => isCanceled (Ty.from_ast_opt db module r)) := by
      rw [mapCancelable_canceled, any_map_fn]
      exact any_congr_fn _ _ _ (fun fd => isCanceled_namedField db module fd)
    cases hmc : mapCancelable (namedField db module) fl with
    | error c =>
      rw [hmc] at hcol
      simp only [VariantData.new, StructFlavor.typeRefs, hmc]
      exact hcol
    | ok fields =>
      rw [hmc] at hcol
      simp only [VariantData.new, StructFlavor.typeRefs, hmc]
      exact hcol
  | Unit => rfl

/-- Enum-descriptor construction cancels exactly when building some declared
variant's shape cancels; with no variant list it never cancels. -/
theorem enumData_new_canceled (db : HirDatabase) (module : Module)
    (enum_def : EnumDef) :
    isCanceled (EnumData.new db module enum_def)
      = (enum_def.variant_list.getD []).any
          (fun v => isCanceled (VariantData.new db module v.flavor)) := by
  cases hvl : enum_def.variant_list with
  | none => simp only [EnumData.new, hvl, Option.getD, isCanceled, List.any_nil]
  | some evl =>
    have hcol : isCanceled (mapCancelable (enumVariantPair db module) evl)
        = evl.any (fun v => isCanceled (VariantData.new db module v.flavor)) := by
      rw [mapCancelable_canceled]
      exact any_congr_fn _ _ _ (fun v => isCanceled_enumVariantPair db module v)
    cases hmc : mapCancelable (enumVariantPair db module) evl with
    | error c =>
      rw [hmc] at hcol
      simp only [EnumData.new, hvl, hmc, Option.getD]
      exact hcol
    | ok variants =>
      rw [hmc] at hcol
      simp only [EnumData.new, hvl, hmc, Option.getD]
      exact hcol

/-- Struct-descriptor construction cancels exactly when its variant-shape
construction cancels. -/
theorem structData_new_canceled (db : HirDatabase) (module : Module)
    (struct_def : StructDef) :
    isCanceled (StructData.new db module struct_def)
      = isCanceled (VariantData.new db module struct_def.flavor) := by
  unfold StructData.new
  cases VariantData.new db module struct_def.flavor <;> rfl

/-- A canceled outcome is the cancellation signal itself. -/
theorem canceled_eq_error {α : Type} {e : Cancelable α}
    (h : isCanceled e = true) : e = Except.error Canceled.mk := by
  cases e with
  | error c => cases c; rfl
  | ok v => simp [isCanceled] at h

/-- A non-canceled outcome carries a value. -/
theorem not_canceled_ok {α : Type} {e : Cancelable α}
    (h : isCanceled e = false) : ∃ v, e = Except.ok v := by
  cases e with
  | error c => simp [isCanceled] at h
  | ok v => exact ⟨v, rfl⟩

/-! ### Claims -/

/-- C1: cancellation is atomic for descriptor construction: whenever the type
resolver cancels on some declared field's type reference, `VariantData.new`
returns the cancellation outcome, and so do `StructData.new` for a struct of
that flavor and `EnumData.new` for an enum declaring a variant of that flavor —
never a descriptor holding only the previously resolved fields. -/
theorem C1_cancellation_atomic (db : HirDatabase) (module : Module)
    (flavor : StructFlavor)
    (h : flavor.typeRefs.any
        (fun r => isCanceled (Ty.from_ast_opt db module r)) = true) :
    VariantData.new db module flavor = Except.error Canceled.mk ∧
    (∀ struct_def : StructDef, struct_def.flavor = flavor →
      StructData.new db module struct_def = Except.error Canceled.mk) ∧
    (∀ (enum_def : EnumDef) (evl : List EnumVariant) (v : EnumVariant),
      enum_def.variant_list = some evl → v ∈ evl → v.flavor = flavor →
      EnumData.new db module enum_def = Except.error Canceled.mk) := by
  have hv : isCanceled (VariantData.new db module flavor) = true := by
    rw [variantData_new_canceled]; exact h
  refine ⟨canceled_eq_error hv, ?_, ?_⟩
  · intro struct_def hf
    apply canceled_eq_error
    rw [structData_new_canceled, hf]
    exact hv
  · intro enum_def evl v hvl hmem hf
    apply canceled_eq_error
    rw [enumData_new_canceled, hvl]
    simp only [Option.getD_some]
    rw [List.any_eq_true]
    exact ⟨v, hmem, by rw [hf]; exact hv⟩

/-- C1 witness: with an always-cancelling resolver, a one-named-field struct
and an enum declaring such a variant both produce the cancellation outcome. -/
theorem C1_cancellation_atomic_witness :
    (flavorOneNamed.typeRefs.any
        (fun r => isCanceled (Ty.from_ast_opt dbCancel mod0 r)) = true) ∧
    VariantData.new dbCancel mod0 flavorOneNamed = Except.error Canceled.mk ∧
    StructData.new dbCancel mod0 (StructDef.mk (some "S") flavorOneNamed)
      = Except.error Canceled.mk ∧
    EnumData.new dbCancel mod0
        (EnumDef.mk (some "E") (some [EnumVariant.mk (some "A") flavorOneNamed]))
      = Except.error Canceled.mk := by
  have h : flavorOneNamed.typeRefs.any
      (fun r => isCanceled (Ty.from_ast_opt dbCancel mod0 r)) = true := rfl
  obtain ⟨h1, h2, h3⟩ := C1_cancellation_atomic dbCancel mod0 flavorOneNamed h
  exact ⟨h, h1, h2 _ rfl,
    h3 _ [EnumVariant.mk (some "A") flavorOneNamed]
      (EnumVariant.mk (some "A") flavorOneNamed) rfl (List.Mem.head _) rfl⟩

/-- C6: the no-fields (Unit) shape has an empty field list, misses every
lookup, reports `is_unit` true and `is_struct` / `is_tuple` false. -/
theorem C6_unit_shape :
    VariantData.Unit.fields = [] ∧
    (∀ field_name : SmolStr, VariantData.Unit.get_field_ty field_name = none) ∧
    VariantData.Unit.is_unit = true ∧
    VariantData.Unit.is_struct = false ∧
    VariantData.Unit.is_tuple = false :=
  ⟨rfl, fun _ => rfl, rfl, rfl, rfl⟩

/-- C7: malformed source (missing names, missing type annotations, absent
field or variant lists) never yields a failure outcome: as long as the
resolver does not cancel, every construction succeeds. -/
theorem C7_malformed_never_fails (db : HirDatabase) (module : Module)
    (h : ∀ r : Option TypeRef, isCanceled (db.ty_from_ast_opt module r) = false) :
    (∀ flavor : StructFlavor,
       ∃ v, VariantData.new db module flavor = Except.ok v) ∧
    (∀ struct_def : StructDef,
       ∃ d, StructData.new db module struct_def = Except.ok d) ∧
    (∀ enum_def : EnumDef,
       ∃ e, EnumData.new db module enum_def = Except.ok e) := by
  have hflavor : ∀ flavor : StructFlavor,
      isCanceled (VariantData.new db module flavor) = false := by
    intro flavor
    rw [variantData_new_canceled]
    rw [List.any_eq_false]
    intro r _
    simp [Ty.from_ast_opt, h r]
  refine ⟨fun flavor => not_canceled_ok (hflavor flavor), ?_, ?_⟩
  · intro struct_def
    apply not_canceled_ok
    rw [structData_new_canceled]
    exact hflavor _
  · intro enum_def
    apply not_canceled_ok
    rw [enumData_new_canceled]
    rw [List.any_eq_false]
    intro v _
    simp [hflavor v.flavor]

/-- C7 witness: a struct with an anonymous named field lacking its type,
and an enum with no variant list at all, both construct successfully under a
non-cancelling resolver. -/
theorem C7_malformed_never_fails_witness :
    (∀ r : Option TypeRef, isCanceled (dbTotal.ty_from_ast_opt mod0 r) = false) ∧
    (∃ d, StructData.new dbTotal mod0
        (StructDef.mk none (StructFlavor.Named [NamedFieldDef.mk none none]))
      = Except.ok d) ∧
    (∃ e, EnumData.new dbTotal mod0 (EnumDef.mk none none) = Except.ok e) := by
  have h : ∀ r : Option TypeRef,
      isCanceled (dbTotal.ty_from_ast_opt mod0 r) = false := fun _ => rfl
  obtain ⟨_, h2, h3⟩ := C7_malformed_never_fails dbTotal mod0 h
  exact ⟨h, h2 _, h3 _⟩

/-- C8: construction is deterministic: two successful runs on the same
definition syntax, module scope and resolver state yield structurally equal
descriptors, for structs and for enums. -/
theorem C8_deterministic (db : HirDatabase) (module : Module) :
    (∀ (struct_def : StructDef) (d1 d2 : StructData),
       StructData.new db module struct_def = Except.ok d1 →
       StructData.new db module struct_def = Except.ok d2 → d1 = d2) ∧
    (∀ (enum_def : EnumDef) (e1 e2 : EnumData),
       EnumData.new db module enum_def = Except.ok e1 →
       EnumData.new db module enum_def = Except.ok e2 → e1 = e2) := by
  constructor
  · intro struct_def d1 d2 h1 h2
    rw [h1] at h2
    injection h2
  · intro enum_def e1 e2 h1 h2
    rw [h1] at h2
    injection h2

/-- C8 witness: rebuilding the same one-field struct twice gives the same
descriptor. -/
theorem C8_deterministic_witness :
    StructData.new dbTotal mod0 (StructDef.mk (some "S") flavorOneNamed)
      = Except.ok (StructData.mk (some "S")
          (VariantData.Struct [StructField.mk "x" (Ty.mk 2)])) ∧
    StructData.mk (some "S") (VariantData.Struct [StructField.mk "x" (Ty.mk 2)])
      = StructData.mk (some "S") (VariantData.Struct [StructField.mk "x" (Ty.mk 2)]) := by
  have h : StructData.new dbTotal mod0 (StructDef.mk (some "S") flavorOneNamed)
      = Except.ok (StructData.mk (some "S")
          (VariantData.Struct [StructField.mk "x" (Ty.mk 2)])) := rfl
  exact ⟨h, (C8_deterministic dbTotal mod0).1 _ _ _ h h⟩

/-- C9: every definition-handle accessor forwards to the query engine with its
stored identifier: cancellation of the underlying query propagates unchanged,
and success projects the corresponding component of the cached descriptor. -/
theorem C9_handles_forward (db : HirDatabase) (s : Struct) (e : Enum) :
    (∀ c : Canceled, db.struct_data s.def_id = Except.error c →
       s.name db = Except.error c ∧ s.variant_data db = Except.error c ∧
       s.struct_data db = Except.error c) ∧
    (∀ d : StructData, db.struct_data s.def_id = Except.ok d →
       s.name db = Except.ok d.name ∧
       s.variant_data db = Except.ok d.variant_data ∧
       s.struct_data db = Except.ok d) ∧
    (∀ c : Canceled, db.enum_data e.def_id = Except.error c →
       e.name db = Except.error c) ∧
    (∀ d : EnumData, db.enum_data e.def_id = Except.ok d →
       e.name db = Except.ok d.name) := by
  refine ⟨?_, ?_, ?_, ?_⟩ <;> intro x h <;>
    simp [Struct.name, Struct.variant_data, Struct.struct_data, Enum.name, h]

/-- C9 witness: on a cached descriptor the handle accessors return its
components; on a cancelled query they return the cancellation. -/
theorem C9_handles_forward_witness :
    dbTotal.struct_data (DefId.mk 0)
      = Except.ok (StructData.mk (some "S") VariantData.Unit) ∧
    (Struct.mk (DefId.mk 0)).name dbTotal = Except.ok (some "S") ∧
    (Struct.mk (DefId.mk 0)).variant_data dbTotal = Except.ok VariantData.Unit ∧
    dbCancel.enum_data (DefId.mk 0) = Except.error Canceled.mk ∧
    (Enum.mk (DefId.mk 0)).name dbCancel = Except.error Canceled.mk := by
  have hok := (C9_handles_forward dbTotal (Struct.mk (DefId.mk 0))
    (Enum.mk (DefId.mk 0))).2.1 (StructData.mk (some "S") VariantData.Unit) rfl
  have herr := (C9_handles_forward dbCancel (Struct.mk (DefId.mk 0))
    (Enum.mk (DefId.mk 0))).2.2.1 Canceled.mk rfl
  exact ⟨rfl, hok.1, hok.2.1, rfl, herr⟩

/-- C10: the three shape predicates are mutually exclusive and exhaustive;
`fields` returns exactly the stored list for the named and positional shapes,
and the unit shape always reports an empty field list. -/
theorem C10_shape_invariants (v : VariantData) :
    ((v.is_struct = true ∧ v.is_tuple = false ∧ v.is_unit = false) ∨
     (v.is_struct = false ∧ v.is_tuple = true ∧ v.is_unit = false) ∨
     (v.is_struct = false ∧ v.is_tuple = false ∧ v.is_unit = true)) ∧
    (∀ fs : List StructField, v = VariantData.Struct fs → v.fields = fs) ∧
    (∀ fs : List StructField, v = VariantData.Tuple fs → v.fields = fs) ∧
    (v.is_unit = true → v.fields = []) := by
  cases v with
  | Struct fields =>
    refine ⟨Or.inl ⟨rfl, rfl, rfl⟩, ?_, ?_, ?_⟩
    · intro fs h; cases h; rfl
    · intro fs h; cases h
    · intro h; cases h
  | Tuple fields =>
    refine ⟨Or.inr (Or.inl ⟨rfl, rfl, rfl⟩), ?_, ?_, ?_⟩
    · intro fs h; cases h
    · intro fs h; cases h; rfl
    · intro h; cases h
  | Unit =>
    refine ⟨Or.inr (Or.inr ⟨rfl, rfl, rfl⟩), ?_, ?_, ?_⟩
    · intro fs h; cases h
    · intro fs h; cases h
    · intro h; rfl

/-- C10 witness: a concrete named shape stores its list and satisfies exactly
the named predicate. -/
theorem C10_shape_invariants_witness :
    VariantData.Struct [StructField.mk "x" (Ty.mk 1)]
      = VariantData.Struct [StructField.mk "x" (Ty.mk 1)] ∧
    (VariantData.Struct [StructField.mk "x" (Ty.mk 1)]).fields
      = [StructField.mk "x" (Ty.mk 1)] :=
  ⟨rfl, (C10_shape_invariants
      (VariantData.Struct [StructField.mk "x" (Ty.mk 1)])).2.1
    [StructField.mk "x" (Ty.mk 1)] rfl⟩

/-- A successful positional field carries the synthesized index name and the
resolver's type. -/
theorem tupleField_ok (db : HirDatabase) (module : Module)
    {p : Nat × PosFieldDef} {f : StructField}
    (h : tupleField db module p = Except.ok f) :
    f.name = toString p.1 ∧
    Ty.from_ast_opt db module p.2.type_ref = Except.ok f.ty := by
  unfold tupleField at h
  cases hx : Ty.from_ast_opt db module p.2.type_ref with
  | error c => rw [hx] at h; cases h
  | ok ty => rw [hx] at h; cases h; exact ⟨rfl, rfl⟩

/-- A successful named field carries the declared (or sentinel) name and the
resolver's type. -/
theorem namedField_ok (db : HirDatabase) (module : Module)
    {fd : NamedFieldDef} {f : StructField}
    (h : namedField db module fd = Except.ok f) :
    f.name = fd.name.getD "[error]" ∧
    Ty.from_ast_opt db module fd.type_ref = Except.ok f.ty := by
  unfold namedField at h
  cases hx : Ty.from_ast_opt db module fd.type_ref with
  | error c => rw [hx] at h; cases h
  | ok ty => rw [hx] at h; cases h; exact ⟨rfl, rfl⟩

/-- A successful variant pair carries the declared (or sentinel) variant name
and the variant's own shape. -/
theorem enumVariantPair_ok (db : HirDatabase) (module : Module)
    {v : EnumVariant} {p : SmolStr × VariantData}
    (h : enumVariantPair db module v = Except.ok p) :
    p.1 = v.name.getD "[error]" ∧
    VariantData.new db module v.flavor = Except.ok p.2 := by
  unfold enumVariantPair at h
  cases hx : VariantData.new db module v.flavor with
  | error c => rw [hx] at h; cases h
  | ok vd => rw [hx] at h; cases h; exact ⟨rfl, rfl⟩

/-- C2: a successful construction of a positional flavor with `n` declared
fields is a Tuple shape of exactly `n` fields in declaration order, the `i`-th
named by the decimal string of the zero-based index `i`. -/
theorem C2_tuple_shape (db : HirDatabase) (module : Module)
    (fl : List PosFieldDef) (v : VariantData)
    (h : VariantData.new db module (StructFlavor.Tuple fl) = Except.ok v) :
    ∃ fields : List StructField, v = VariantData.Tuple fields ∧
      fields.length = fl.length ∧
      fields.map (fun f => f.name) = (List.range fl.length).map toString := by
  cases hmc : mapCancelable (tupleField db module) fl.enum with
  | error c =>
    simp only [VariantData.new, hmc] at h
    exact Except.noConfusion h
  | ok fields =>
    simp only [VariantData.new, hmc] at h
    cases h
    have hforall := mapCancelable_ok hmc
    refine ⟨fields, rfl, ?_, ?_⟩
    · have hlen := hforall.length_eq
      rw [← hlen]
      exact List.enumFrom_length
    · have hnames : fields.map (fun f => f.name)
          = fl.enum.map (fun p : Nat × PosFieldDef => toString p.1) :=
        Forall₂_map_eq (fun f => f.name)
          (fun p : Nat × PosFieldDef => toString p.1)
          (fun p f hpf => (tupleField_ok db module hpf).1) hforall
      rw [hnames]
      calc fl.enum.map (fun p : Nat × PosFieldDef => toString p.1)
          = (fl.enum.map Prod.fst).map toString :=
            (List.map_map toString Prod.fst fl.enum).symm
        _ = (List.range' 0 fl.length).map toString := by
            rw [List.enum_eq_enumFrom, List.enumFrom_map_fst]
        _ = (List.range fl.length).map toString := by rw [List.range_eq_range']

/-- C2 witness: three positional declarations yield field names exactly
["0", "1", "2"]. -/
theorem C2_tuple_shape_witness :
    VariantData.new dbTotal mod0 (StructFlavor.Tuple fl3) = Except.ok v3 ∧
    (∃ fields : List StructField, v3 = VariantData.Tuple fields ∧
      fields.length = fl3.length ∧
      fields.map (fun f => f.name) = (List.range fl3.length).map toString) :=
  ⟨rfl, C2_tuple_shape dbTotal mod0 fl3 v3 rfl⟩

/-- C3: a successful enum construction keeps the declared name, pairs each
declared variant in source order with its own shape — using the declared
identifier or the `"[error]"` sentinel as the variant name — and yields the
empty list when no variant list is present. -/
theorem C3_enum_variants (db : HirDatabase) (module : Module)
    (enum_def : EnumDef) (e : EnumData)
    (h : EnumData.new db module enum_def = Except.ok e) :
    e.name = enum_def.name ∧
    List.Forall₂ (fun (v : EnumVariant) (p : SmolStr × VariantData) =>
        p.1 = v.name.getD "[error]" ∧
        VariantData.new db module v.flavor = Except.ok p.2)
      (enum_def.variant_list.getD []) e.variants ∧
    (enum_def.variant_list = none → e.variants = []) := by
  cases hvl : enum_def.variant_list with
  | none =>
    simp only [EnumData.new, hvl] at h
    cases h
    exact ⟨rfl, List.Forall₂.nil, fun _ => rfl⟩
  | some evl =>
    cases hmc : mapCancelable (enumVariantPair db module) evl with
    | error c =>
      simp only [EnumData.new, hvl, hmc] at h
      exact Except.noConfusion h
    | ok variants =>
      simp only [EnumData.new, hvl, hmc] at h
      cases h
      refine ⟨rfl, ?_, fun hn => Option.noConfusion hn⟩
      simp only [Option.getD_some]
      exact (mapCancelable_ok hmc).imp
        (fun a b hab => enumVariantPair_ok db module hab)

/-- C3 witness: a three-variant enum (unit, positional, anonymous named)
yields its three (name, shape) pairs in declaration order. -/
theorem C3_enum_variants_witness :
    EnumData.new dbTotal mod0 ed3 = Except.ok e3 ∧
    e3.name = ed3.name ∧
    List.Forall₂ (fun (v : EnumVariant) (p : SmolStr × VariantData) =>
        p.1 = v.name.getD "[error]" ∧
        VariantData.new dbTotal mod0 v.flavor = Except.ok p.2)
      (ed3.variant_list.getD []) e3.variants := by
  have h := C3_enum_variants dbTotal mod0 ed3 e3 rfl
  exact ⟨rfl, h.1, h.2.1⟩

/-- C4: a successful construction of a named flavor is a Struct shape whose
fields appear in declaration order, each named by its declared identifier or
the `"[error]"` sentinel, with its type obtained from the resolver. -/
theorem C4_named_shape (db : HirDatabase) (module : Module)
    (fl : List NamedFieldDef) (v : VariantData)
    (h : VariantData.new db module (StructFlavor.Named fl) = Except.ok v) :
    ∃ fields : List StructField, v = VariantData.Struct fields ∧
      List.Forall₂ (fun (fd : NamedFieldDef) (f : StructField) =>
        f.name = fd.name.getD "[error]" ∧
        Ty.from_ast_opt db module fd.type_ref = Except.ok f.ty) fl fields := by
  cases hmc : mapCancelable (namedField db module) fl with
  | error c =>
    simp only [VariantData.new, hmc] at h
    exact Except.noConfusion h
  | ok fields =>
    simp only [VariantData.new, hmc] at h
    cases h
    exact ⟨fields, rfl,
      (mapCancelable_ok hmc).imp (fun a b hab => namedField_ok db module hab)⟩

/-- C4 witness: a declared field `x` and an anonymous untyped field yield the
names `x` and `"[error]"` with their resolved types, in order. -/
theorem C4_named_shape_witness :
    VariantData.new dbTotal mod0 (StructFlavor.Named fl4) = Except.ok v4 ∧
    (∃ fields : List StructField, v4 = VariantData.Struct fields ∧
      List.Forall₂ (fun (fd : NamedFieldDef) (f : StructField) =>
        f.name = fd.name.getD "[error]" ∧
        Ty.from_ast_opt dbTotal mod0 fd.type_ref = Except.ok f.ty) fl4 fields) :=
  ⟨rfl, C4_named_shape dbTotal mod0 fl4 v4 rfl⟩

/-- C5: field lookup is a linear first-match scan: it yields the resolved type
of the first field in declaration order whose name equals the query, and
`none` exactly when no field bears that name. -/
theorem C5_get_field_ty_first_match (v : VariantData) (field_name : SmolStr) :
    (∀ t : Ty, v.get_field_ty field_name = some t ↔
       ∃ (pre : List StructField) (f : StructField) (post : List StructField),
         v.fields = pre ++ f :: post ∧ f.name = field_name ∧ f.ty = t ∧
         ∀ g ∈ pre, g.name ≠ field_name) ∧
    (v.get_field_ty field_name = none ↔ ∀ f ∈ v.fields, f.name ≠ field_name) := by
  constructor
  · intro t
    unfold VariantData.get_field_ty
    rw [Option.map_eq_some']
    constructor
    · rintro ⟨f, hfind, hty⟩
      rw [List.find?_eq_some] at hfind
      obtain ⟨hname, pre, post, heq, hpre⟩ := hfind
      refine ⟨pre, f, post, heq, by simpa using hname, hty, ?_⟩
      intro g hg
      simpa using hpre g hg
    · rintro ⟨pre, f, post, heq, hname, hty, hpre⟩
      refine ⟨f, ?_, hty⟩
      rw [List.find?_eq_some]
      refine ⟨by simpa using hname, pre, post, heq, ?_⟩
      intro g hg
      simpa using hpre g hg
  · unfold VariantData.get_field_ty
    rw [Option.map_eq_none', List.find?_eq_none]
    constructor
    · intro hnone f hf
      simpa using hnone f hf
    · intro hall f hf
      simpa using hall f hf

/-- C5 witness: with two fields both named by the sentinel, lookup of the
sentinel name returns the type of the first one in declaration order. -/
theorem C5_get_field_ty_first_match_witness :
    (VariantData.Struct [StructField.mk "[error]" (Ty.mk 1),
        StructField.mk "[error]" (Ty.mk 2)]).get_field_ty "[error]"
      = some (Ty.mk 1) :=
  ((C5_get_field_ty_first_match
      (VariantData.Struct [StructField.mk "[error]" (Ty.mk 1),
        StructField.mk "[error]" (Ty.mk 2)]) "[error]").1 (Ty.mk 1)).mpr
    ⟨[], StructField.mk "[error]" (Ty.mk 1),
      [StructField.mk "[error]" (Ty.mk 2)], rfl, rfl, rfl,
      fun g hg => absurd hg (List.not_mem_nil g)⟩

end RaHir
